import Mathlib

/-
Verification development for the browtool repository.

The embedding covers:
- src/compiler/compile.mjs      (namespace Compiler)
- src/extension/background.js   (namespace BG)
- src/extension/popup.js, content-script part (namespace Rec)
- the parameter placeholder system, modelled from the spec because the
  Python module implementing it is not part of the sources (namespace Params)

JavaScript strings are modelled as Lean String; a possibly-absent
(undefined/null) string field is Option String.  JavaScript truthiness of
such a field (null, undefined and "" are falsy) is the `truthy` predicate.
-/

/-- Truthiness of a JavaScript string-or-nullish value: null/undefined and
the empty string are falsy, every other string is truthy. -/
def truthy : Option String → Bool
  | none => false
  | some s => !(s == "")

/-- Model of JavaScript `toLowerCase()` on the ASCII attribute and tag
values the source compares, as a structurally recursive character map. -/
def lowerStr (s : String) : String :=
  String.mk (s.data.map Char.toLower)

namespace Compiler

/-- Lower-case hexadecimal digit, used by the JSON string escaper. -/
def hexDigitChar (n : Nat) : Char :=
  if n < 10 then Char.ofNat (48 + n) else Char.ofNat (87 + n)

/-- Escape of a single character exactly as JSON.stringify escapes it
inside a double-quoted JSON string. -/
def escChar (c : Char) : List Char :=
  if c = '"' then ['\\', '"']
  else if c = '\\' then ['\\', '\\']
  else if c = '\n' then ['\\', 'n']
  else if c = '\r' then ['\\', 'r']
  else if c = '\t' then ['\\', 't']
  else if c.toNat = 8 then ['\\', 'b']
  else if c.toNat = 12 then ['\\', 'f']
  else if c.toNat < 32 then
    ['\\', 'u', '0', '0', hexDigitChar (c.toNat / 16), hexDigitChar (c.toNat % 16)]
  else [c]

/-- Model of compile.mjs `jsString`: `JSON.stringify(String(s ?? ""))`.
A nullish argument is replaced by the empty string, then the result is
rendered as a double-quoted JSON string literal. -/
def jsString (s : Option String) : String :=
  String.mk ('"' :: ((s.getD ("")).data.flatMap escChar ++ ['"']))

/-- Model of the TargetDescriptor objects consumed by compile.mjs
(`step.target`): every field the compiler reads, each nullable. -/
structure Target where
  testId : Option String := none
  role : Option String := none
  accessibleName : Option String := none
  text : Option String := none
  ariaLabel : Option String := none
  labelText : Option String := none
  placeholder : Option String := none
  id : Option String := none
  css : Option String := none
  tag : Option String := none
deriving DecidableEq

/-- Model of compile.mjs `pickLocatorExpr`.  The descriptor itself may be
nullish (`step?.target`), hence the Option Target argument; each field is
read through optional chaining and tested for truthiness, exactly as the
source's cascade of `if (x) return ...` does. -/
def pickLocatorExpr (target : Option Target) : String :=
  let testId := target.bind (fun t => t.testId)
  if truthy testId then ("page.getByTestId(") ++ jsString testId ++ ")"
  else
  let role := target.bind (fun t => t.role)
  let name :=
    if truthy (target.bind (fun t => t.accessibleName)) then target.bind (fun t => t.accessibleName)
    else if truthy (target.bind (fun t => t.text)) then target.bind (fun t => t.text)
    else target.bind (fun t => t.ariaLabel)
  if truthy role && truthy name then
    "page.getByRole(" ++ jsString role ++ ", \x7b name: " ++ jsString name ++ " \x7d)"
  else
  let label := target.bind (fun t => t.labelText)
  if truthy label then ("page.getByLabel(") ++ jsString label ++ ")"
  else
  let ph := target.bind (fun t => t.placeholder)
  if truthy ph then ("page.getByPlaceholder(") ++ jsString ph ++ ")"
  else
  let idAttr := target.bind (fun t => t.id)
  if truthy idAttr then ("page.locator(") ++ jsString (some ("#" ++ idAttr.getD (""))) ++ ")"
  else
  let css := target.bind (fun t => t.css)
  if truthy css then ("page.locator(") ++ jsString css ++ ")"
  else
  let tag := target.bind (fun t => t.tag)
  if truthy tag then ("page.locator(") ++ jsString tag ++ ")"
  else ("page.locator(\"body\")")

/-- Model of one element of the tape's `steps` array as compile.mjs reads
it: only `t`, `value` and `target` are consumed (plus `url` of the first
step by buildScript).  A null entry in the array corresponds to the
all-`none` value. -/
structure CStep where
  t : Option String := none
  url : Option String := none
  value : Option String := none
  target : Option Target := none

/-- Model of compile.mjs `stepToCode`: a `type` step lowers to fill plus a
fixed settle timeout, a `click` step to click plus a soft load-state wait,
and any other kind to a single inert comment line. -/
def stepToCode (step : CStep) (idx : Nat) : String :=
  let loc := pickLocatorExpr step.target
  if step.t == some ("type") then
    "  // step " ++ toString (idx + 1) ++ ": type\n  await " ++ loc ++ ".fill("
      ++ jsString step.value ++ ");\n  await page.waitForTimeout(50);"
  else if step.t == some ("click") then
    "  // step " ++ toString (idx + 1) ++ ": click\n  await " ++ loc
      ++ ".click();\n  await page.waitForLoadState(\"domcontentloaded\").catch(() => \x7b\x7d);"
  else
    "  // step " ++ toString (idx + 1) ++ ": unsupported step type " ++ jsString step.t ++ " (ignored)"

/-- Model of the tape document as compile.mjs reads it.  `steps = none`
models a missing `steps` property as well as one that is not an array
(only `Array.isArray` distinguishes them, and both are replaced by `[]`). -/
structure CTape where
  startUrl : Option String := none
  steps : Option (List CStep) := none

/-- Model of node's `path.basename` as used for the generated header:
the last non-empty slash-separated component of the path. -/
def basename (p : String) : String :=
  ((p.splitOn ("/")).filter (fun s => !(s == ""))).getLastD p

/-- Start-URL resolution of buildScript:
`tape?.startUrl || tape?.steps?.[0]?.url || "about:blank"`. -/
def resolveStartUrl (tape : CTape) : String :=
  if truthy tape.startUrl then tape.startUrl.getD ("")
  else
    let u := (tape.steps.bind List.head?).bind (fun s => s.url)
    if truthy u then u.getD ("") else ("about:blank")

/-- Model of compile.mjs `buildScript`: the exact generated text — fixed
bootstrap, one block plus blank line per step, and the fixed teardown.
The source contains no call that reads a clock: the header line mentions
only the tape file's basename. -/
def buildScript (tape : CTape) (sourcePath : String) : String :=
  let startUrl := resolveStartUrl tape
  let steps := tape.steps.getD []
  let stepLines := (steps.enum.map (fun p => [stepToCode p.2 p.1, ""])).flatten
  let lines :=
    ["// Generated from " ++ basename sourcePath ++ " by browtool compiler",
     "import \x7b chromium \x7d from \"playwright\";",
     "",
     "const TAPE_PATH = " ++ jsString (some sourcePath) ++ ";",
     "",
     "(async () => \x7b",
     "  const browser = await chromium.launch(\x7b headless: true \x7d);",
     "  const page = await browser.newPage(\x7b viewport: \x7b width: 1280, height: 800 \x7d \x7d);",
     "",
     "  page.on(\"console\", (msg) => console.log(\"[console]\", msg.type(), msg.text()));",
     "  page.on(\"pageerror\", (err) => console.log(\"[pageerror]\", err?.message || String(err)));",
     "",
     "  await page.goto(" ++ jsString (some startUrl) ++ ", \x7b waitUntil: \"domcontentloaded\" \x7d);",
     ""]
    ++ stepLines
    ++ ["  const finalUrl = page.url();",
        "  const html = await page.content();",
        "  console.log(\"FINAL_URL:\", finalUrl);",
        "  console.log(\"HTML_LENGTH:\", html.length);",
        "",
        "  await page.screenshot(\x7b path: \"out/final.png\", fullPage: true \x7d);",
        "  await fs.promises.writeFile(\"out/final.html\", html, \"utf-8\");",
        "",
        "  await browser.close();",
        "\x7d)();"]
  "import fs from \"node:fs\";\n" ++ String.intercalate ("\n") lines ++ "\n"

/-- One invocation of the compiler on a fixed tape and source path, at an
ambient wall-clock time `ambientTimeMs`.  compile.mjs never reads a clock
(no `Date.now()` or similar on the buildScript path), so the run's output
is `buildScript tape sourcePath` irrespective of the ambient time; the
explicit time parameter lets the determinism hyperproperty be stated over
two runs at different times. -/
def compileRun (tape : CTape) (sourcePath : String) (ambientTimeMs : Nat) : String :=
  buildScript tape sourcePath

/-- Spec-side description of the locator policy (refinement target for
claim C1): an ordered list of strategies, each returning its locator
expression when its predicate holds.  The role strategy's accessible name
is the first truthy one of accessibleName, text, ariaLabel. -/
def nameHint (t : Target) : Option String :=
  if truthy t.accessibleName then t.accessibleName
  else if truthy t.text then t.text
  else t.ariaLabel

/-- Spec-side ordered strategy table: stable test identifier, role plus
name, label text, placeholder text, element id, structural CSS fallback,
bare tag. -/
def strategies : List (Target → Option String) :=
  [fun t => if truthy t.testId then some ("page.getByTestId(" ++ jsString t.testId ++ ")") else none,
   fun t => if truthy t.role && truthy (nameHint t) then
      some ("page.getByRole(" ++ jsString t.role ++ ", \x7b name: " ++ jsString (nameHint t) ++ " \x7d)")
    else none,
   fun t => if truthy t.labelText then some ("page.getByLabel(" ++ jsString t.labelText ++ ")") else none,
   fun t => if truthy t.placeholder then some ("page.getByPlaceholder(" ++ jsString t.placeholder ++ ")") else none,
   fun t => if truthy t.id then some ("page.locator(" ++ jsString (some ("#" ++ t.id.getD (""))) ++ ")") else none,
   fun t => if truthy t.css then some ("page.locator(" ++ jsString t.css ++ ")") else none,
   fun t => if truthy t.tag then some ("page.locator(" ++ jsString t.tag ++ ")") else none]

/-- First-match-wins evaluation of an ordered strategy table, with the
body locator as the final default. -/
def firstWins : List (Target → Option String) → Target → String
  | [], _ => ("page.locator(\"body\")")
  | s :: rest, t =>
    match s t with
    | some e => e
    | none => firstWins rest t

end Compiler

namespace BG

/-- Model of a recorded step as background.js stores it (`msg.step`): the
fields written by the content script.  Only `url` is inspected by the
tape assembler; the rest travels opaquely. -/
structure Step where
  t : Option String := none
  ts : Nat := 0
  url : Option String := none
  value : Option String := none
deriving DecidableEq

/-- Model of one per-tab tape object of background.js. -/
structure Tape where
  createdAt : Nat
  updatedAt : Nat
  startUrl : Option String
  steps : List Step
deriving DecidableEq

/-- Fresh tape created by `ensureTabTape`/`appendStep` when none exists
for the tab: `Date.now()` timestamps, null startUrl, empty steps. -/
def freshTape (now : Nat) : Tape :=
  { createdAt := now, updatedAt := now, startUrl := none, steps := [] }

/-- Model of background.js `appendStep` restricted to one tab's tape
(`tapeByTab[key] ?? fresh`): lazily set startUrl from the step's url when
the current startUrl is falsy and the step's url truthy, push the step,
stamp updatedAt with the current time. -/
def appendStep (tapeOpt : Option Tape) (step : Step) (now : Nat) : Tape :=
  let t0 := tapeOpt.getD (freshTape now)
  let t1 := if !(truthy t0.startUrl) && truthy step.url then { t0 with startUrl := step.url } else t0
  { t1 with steps := t1.steps ++ [step], updatedAt := now }

/-- Recording flag entry of `stateByTab`. -/
structure RecState where
  recording : Bool
  updatedAt : Nat
deriving DecidableEq

/-- Model of the two chrome.storage.local maps of background.js, keyed by
stringified tab id. -/
structure Store where
  tapeByTab : String → Option Tape
  stateByTab : String → Option RecState

/-- Storage with no tapes and no recording state. -/
def emptyStore : Store :=
  { tapeByTab := fun _ => none, stateByTab := fun _ => none }

/-- Model of background.js `setRecording` (the storage part). -/
def setRecording (st : Store) (tabId : String) (enabled : Bool) (now : Nat) : Store :=
  { st with stateByTab := fun k =>
      if k = tabId then some { recording := enabled, updatedAt := now } else st.stateByTab k }

/-- Model of background.js `ensureTabTape`: create a fresh tape for the
tab only if none is stored. -/
def ensureTabTape (st : Store) (tabId : String) (now : Nat) : Store :=
  match st.tapeByTab tabId with
  | some _ => st
  | none =>
    { st with tapeByTab := fun k =>
        if k = tabId then some (freshTape now) else st.tapeByTab k }

/-- Model of background.js `clearTape`: delete the tab's tape entry. -/
def clearTape (st : Store) (tabId : String) : Store :=
  { st with tapeByTab := fun k => if k = tabId then none else st.tapeByTab k }

/-- Model of the `chrome.tabs.onRemoved` listener of background.js: it
deletes the tab's entry of `stateByTab` only — the tape map is untouched. -/
def onTabRemoved (st : Store) (tabId : String) : Store :=
  { st with stateByTab := fun k => if k = tabId then none else st.stateByTab k }

/-- Model of the `BT_POPUP_START` handler: ensure a tape exists for the
active tab, then enable recording for it. -/
def popupStart (st : Store) (tabId : String) (now : Nat) : Store :=
  setRecording (ensureTabTape st tabId now) tabId true now

/-- Sequence of `appendStep` calls for one tab, each with its own
`Date.now()` value, starting from an existing tape. -/
def appendMany (t : Tape) (l : List (Step × Nat)) : Tape :=
  l.foldl (fun acc p => appendStep (some acc) p.1 p.2) t

/-- Url of the first step of the sequence that carries a truthy url. -/
def firstUrl (l : List (Step × Nat)) : Option String :=
  (l.find? (fun p => truthy p.1.url)).bind (fun p => p.1.url)

end BG

namespace Rec

/-- Model of the DOM element facts the content script of popup.js reads
when deciding whether and what to capture for typing.  `tag` carries the
DOM tagName (upper-case in HTML documents); the predicates lower-case it
as the source does. -/
structure El where
  tag : String
  typeAttr : Option String := none
  disabled : Bool := false
  readOnly : Bool := false
  contentEditableProp : Bool := false
  contenteditableAttr : Option String := none
deriving DecidableEq

/-- Input types excluded by `isTextLikeInput`. -/
def excludedInputTypes : List String :=
  ["button", "submit", "reset", "checkbox", "radio", "file", "color", "range",
   "date", "datetime-local", "month", "week", "time", "hidden"]

/-- Model of popup.js `isTextLikeInput`. -/
def isTextLikeInput (el : El) : Bool :=
  let tag := lowerStr el.tag
  if tag == "textarea" then true
  else if !(tag == "input") then false
  else !(excludedInputTypes.contains (lowerStr (el.typeAttr.getD ("text"))))

/-- Model of popup.js `shouldSkipTyping`: password inputs, disabled and
read-only fields are skipped (the null-element guard is outside the
model: events carry a resolved element). -/
def shouldSkipTyping (el : El) : Bool :=
  let tag := lowerStr el.tag
  if tag == "input" && lowerStr (el.typeAttr.getD ("text")) == "password" then true
  else if el.disabled then true
  else if el.readOnly then true
  else false

/-- Editability test of `recordInput`: text-like input, or the element is
content-editable (property, or an explicit contenteditable attribute of
"" or "true"). -/
def isEditableEl (el : El) : Bool :=
  isTextLikeInput el || el.contentEditableProp
    || el.contenteditableAttr == some ("") || el.contenteditableAttr == some ("true")

/-- Combined gate of `recordInput` after target resolution: editable and
not skipped. -/
def gateOK (el : El) : Bool :=
  isEditableEl el && !(shouldSkipTyping el)

/-- Value captured by `recordInput` from the element when the edit event
fires: the field value for text-like inputs and textareas, the text
content for content-editable elements, otherwise the empty string.  The
event model supplies the element's current content as `raw`. -/
def capturedValue (el : El) (raw : String) : String :=
  if isTextLikeInput el || lowerStr el.tag == "textarea" then raw
  else if el.contentEditableProp then raw
  else ("")

/-- Length bound applied by `recordInput` (5000 characters). -/
def clampValue (v : String) : String :=
  if v.length > 5000 then v.take 5000 else v

/-- Debounce window of popup.js (`TYPE_DEBOUNCE_MS`). -/
def TYPE_DEBOUNCE_MS : Nat := 700

/-- Events reaching the typing-capture listeners for one element, in time
order: an `input` edit carrying the element's current content, or a
`change`/`blur` event. -/
inductive PEvent where
  | edit (time : Nat) (trusted : Bool) (raw : String)
  | endInput (time : Nat) (trusted : Bool)
deriving DecidableEq

/-- Pending debounced flush for the element: scheduled fire time and the
value stored by the latest `scheduleType` call. -/
abbrev Pending := Option (Nat × String)

/-- Timer semantics: when control reaches wall-clock time `t`, a pending
flush whose deadline has passed has fired, emitting its step (`flushType`
via the setTimeout callback) and clearing the pending table entry. -/
def fireIfDue (pending : Pending) (t : Nat) : List (Nat × String) × Pending :=
  match pending with
  | some p => if p.1 ≤ t then ([p], none) else ([], pending)
  | none => ([], none)

/-- One event of the typing-capture machine for a fixed element.  An edit
event runs `recordInput`: gates on the recording flag, `isTrusted`,
editability and `shouldSkipTyping`, then `scheduleType` cancels any
pending timer and schedules a fresh flush at `t + 700` with the clamped
current value.  A change/blur event runs `recordChangeOrBlur`: gates on
recording and `isTrusted`, then force-flushes any pending edit
immediately.  Emitted pairs are (emission time, step value). -/
def stepEv (recording : Bool) (el : El) (pending : Pending) : PEvent → List (Nat × String) × Pending
  | PEvent.edit t tr raw =>
    let fp := fireIfDue pending t
    if recording && tr && gateOK el then
      (fp.1, some (t + TYPE_DEBOUNCE_MS, clampValue (capturedValue el raw)))
    else (fp.1, fp.2)
  | PEvent.endInput t tr =>
    let fp := fireIfDue pending t
    if recording && tr then
      match fp.2 with
      | some p => (fp.1 ++ [(t, p.2)], none)
      | none => (fp.1, none)
    else (fp.1, fp.2)

/-- Run of the typing-capture machine over a time-ordered event list; when
the stream ends, an uncancelled pending timer eventually fires and emits
its step at its deadline. -/
def runEvents (recording : Bool) (el : El) : Pending → List PEvent → List (Nat × String)
  | pending, [] =>
    (match pending with
     | some p => [p]
     | none => [])
  | pending, e :: rest =>
    let r := stepEv recording el pending e
    r.1 ++ runEvents recording el r.2 rest

/-- Chain condition: each listed edit occurs strictly before the deadline
scheduled by its predecessor (first argument: the currently pending
deadline). -/
def withinChainB : Nat → List (Nat × String) → Bool
  | _, [] => true
  | d, p :: rest => if p.1 < d then withinChainB (p.1 + TYPE_DEBOUNCE_MS) rest else false

/-- Trusted edit events for a list of (time, content) pairs. -/
def edits (l : List (Nat × String)) : List PEvent :=
  l.map (fun p => PEvent.edit p.1 true p.2)

/-- Pending entry left after a burst of accepted edits starting from the
pending entry `p`. -/
def pendAfter (el : El) : Nat × String → List (Nat × String) → Nat × String
  | p, [] => p
  | _, q :: rest => pendAfter el (q.1 + TYPE_DEBOUNCE_MS, clampValue (capturedValue el q.2)) rest

end Rec

namespace Params

/-- Segment of a script text: literal text, or one placeholder token. -/
inductive Seg where
  | lit (cs : List Char)
  | ph (name : String)
deriving DecidableEq

/-- Scanner state for the two-sided `\x7b\x7bname\x7d\x7d` marker syntax:
outside any token, after one opening brace, inside a candidate name, or
inside after one closing brace. -/
inductive PMode where
  | out
  | out1
  | ins (acc : List Char)
  | ins1 (acc : List Char)

/-- Modelled from the spec: the placeholder scanner of the parameter
system, whose Python implementation (browtool.mcp_server) is not among
the sources.  It splits script text into literal segments and
`\x7b\x7bname\x7d\x7d` placeholder tokens; per the spec the name spans
literal text with no nested delimiters, so a stray delimiter aborts the
candidate token.  `segs` and `lit` are accumulators in reverse order. -/
def parseAux (segs : List Seg) (lit : List Char) : PMode → List Char → List Seg
  | mode, [] =>
    let litFinal :=
      match mode with
      | PMode.out => lit
      | PMode.out1 => '{' :: lit
      | PMode.ins acc => acc ++ '{' :: '{' :: lit
      | PMode.ins1 acc => '}' :: acc ++ '{' :: '{' :: lit
    (if litFinal.isEmpty then segs else Seg.lit litFinal.reverse :: segs).reverse
  | PMode.out, c :: rest =>
    if c = '{' then parseAux segs lit PMode.out1 rest
    else parseAux segs (c :: lit) PMode.out rest
  | PMode.out1, c :: rest =>
    if c = '{' then parseAux segs lit (PMode.ins []) rest
    else parseAux segs (c :: '{' :: lit) PMode.out rest
  | PMode.ins acc, c :: rest =>
    if c = '}' then parseAux segs lit (PMode.ins1 acc) rest
    else if c = '{' then
      if acc.isEmpty then parseAux segs ('{' :: lit) (PMode.ins []) rest
      else parseAux segs (acc ++ '{' :: '{' :: lit) PMode.out1 rest
    else parseAux segs lit (PMode.ins (c :: acc)) rest
  | PMode.ins1 acc, c :: rest =>
    if c = '}' then
      let segs' := if lit.isEmpty then segs else Seg.lit lit.reverse :: segs
      parseAux (Seg.ph (String.mk acc.reverse) :: segs') [] PMode.out rest
    else if c = '{' then parseAux segs ('}' :: acc ++ '{' :: '{' :: lit) PMode.out1 rest
    else parseAux segs (c :: '}' :: acc ++ '{' :: '{' :: lit) PMode.out rest

/-- Segments of a script string. -/
def parseSegs (script : String) : List Seg :=
  parseAux [] [] PMode.out script.data

/-- Placeholder names of a segment list, in order of occurrence. -/
def phNames : List Seg → List String :=
  List.filterMap (fun s =>
    match s with
    | Seg.ph n => some n
    | Seg.lit _ => none)

/-- Deduplication preserving the first occurrence of each name. -/
def dedupAux (seen : List String) : List String → List String
  | [] => []
  | x :: xs => if seen.contains x then dedupAux seen xs else x :: dedupAux (x :: seen) xs

/-- Ordered set of distinct placeholder names. -/
def dedup (l : List String) : List String :=
  dedupAux [] l

/-- Modelled from the spec: parameter extraction — the ordered set of
distinct placeholder names referenced in a script text. -/
def extract (script : String) : List String :=
  dedup (phNames (parseSegs script))

/-- Rendering of segments under a name-to-value mapping: literal segments
verbatim, each placeholder token replaced by the literal value supplied
for its name (no escaping, per the spec's documented limitation). -/
def renderChars (segs : List Seg) (m : String → Option String) : List Char :=
  (segs.map (fun s =>
    match s with
    | Seg.lit cs => cs
    | Seg.ph n => ((m n).getD ("")).data)).flatten

/-- Modelled from the spec: all-or-nothing substitution.  When any
referenced placeholder name lacks a supplied value the call fails;
otherwise every marker occurrence is replaced by its value. -/
def substitute (script : String) (m : String → Option String) : Except String String :=
  match (extract script).find? (fun n => (m n).isNone) with
  | some n => Except.error ("missing value for placeholder: " ++ n)
  | none => Except.ok (String.mk (renderChars (parseSegs script) m))

/-- Modelled from the spec: the replay path substitutes before any
execution side effect; the result is the script handed to the execution
collaborator, and `none` means nothing is executed. -/
def replayExec (script : String) (m : String → Option String) : Option String :=
  (substitute script m).toOption

/-- String containing no marker-delimiter characters. -/
def braceFree (s : String) : Bool :=
  s.data.all (fun c => !(c = '{') && !(c = '}'))

/-- Mapping whose value (when supplied) for a name is brace-free. -/
def braceFreeAt (m : String → Option String) (n : String) : Bool :=
  match m n with
  | none => true
  | some v => braceFree v

/-- Script whose literal text outside placeholder tokens contains no
marker-delimiter characters. -/
def litsClean (script : String) : Bool :=
  (parseSegs script).all (fun s =>
    match s with
    | Seg.lit cs => cs.all (fun c => !(c = '{') && !(c = '}'))
    | Seg.ph _ => true)

end Params

/-- Counterexample descriptor for claim C1: it carries a non-null (but
empty) test identifier together with a role and an accessible name. -/
def cexTargetC1 : Compiler.Target :=
  { testId := some (""), role := some ("button"), accessibleName := some ("OK"), tag := some ("input") }

/-- Fixture tape with a missing steps property. -/
def cTapeNoSteps : Compiler.CTape := { startUrl := some ("https://x.test/"), steps := none }

/-- Fixture step of unrecognized kind. -/
def cStepHover : Compiler.CStep := { t := some ("hover") }

/-- Fixture tape with a truthy startUrl already set. -/
def bgTape0 : BG.Tape :=
  { createdAt := 0, updatedAt := 0, startUrl := some ("https://x.test/"), steps := [] }

/-- Fixture step carrying a different url. -/
def bgStep0 : BG.Step := { url := some ("https://y.test/") }

/-- Fixture element: a plain text input. -/
def elText : Rec.El := { tag := "INPUT", typeAttr := some ("text") }

/-- Fixture element: a password input (mixed-case attribute value, which
the source lower-cases before comparing). -/
def elPwd : Rec.El := { tag := "INPUT", typeAttr := some ("Password") }

/-- Fixture script referencing the placeholders url and q. -/
def pScript1 : String := "open \x7b\x7burl\x7d\x7d and \x7b\x7bq\x7d\x7d"

/-- Fixture value map supplying url only. -/
def pMapMissing : String → Option String :=
  fun n => if n = "url" then some ("https://x.test/") else none

/-- Fixture value map supplying url and q. -/
def pMapFull : String → Option String :=
  fun n => if n = "url" then some ("https://x.test/") else if n = "q" then some ("wiki") else none

/-- Counterexample script for claim C5. -/
def pScriptCex : String := "run \x7b\x7ba\x7d\x7d now"

/-- Counterexample value map for claim C5: the supplied value itself
contains a marker token. -/
def pMapCex : String → Option String :=
  fun n => if n = "a" then some ("\x7b\x7bb\x7d\x7d") else none

section Helpers

/-- Nonemptiness of a string from positive length. -/
theorem str_ne_empty (s : String) (h : 0 < s.length) : s ≠ "" := by
  intro he
  rw [he] at h
  exact absurd h (by decide)

/-- Appending a nonempty string yields a nonempty result. -/
theorem append_len_pos (a b : String) (h : 0 < b.length) : 0 < (a ++ b).length := by
  rw [String.length_append]
  omega

end Helpers

/-- Claim C2: compiling the same Tape from the same source path twice
yields byte-identical output.  The compiler reads no clock anywhere on
the buildScript path, so two runs at arbitrary ambient times agree on
every byte — in particular they disagree in at most a timestamp, as the
claim states (the generated header carries no timestamp at all). -/
theorem c2_compile_deterministic :
    ∀ (tape : Compiler.CTape) (sourcePath : String) (run1 run2 : Nat),
      Compiler.compileRun tape sourcePath run1 = Compiler.compileRun tape sourcePath run2 :=
  fun _ _ _ _ => rfl

/-- Counterexample to claim C1 as stated: this descriptor carries a
non-null test identifier (the empty string) together with a role and an
accessible name, yet the compiled locator uses the role strategy, not the
test-identifier strategy — the chain tests truthiness, not non-nullness. -/
theorem c1_counterexample :
    Compiler.pickLocatorExpr (some cexTargetC1) = "page.getByRole(\"button\", \x7b name: \"OK\" \x7d)"
    ∧ Compiler.pickLocatorExpr (some cexTargetC1)
        ≠ "page.getByTestId(" ++ Compiler.jsString cexTargetC1.testId ++ ")" := by
  constructor <;> decide

/-- Positivity of the length of every locator expression the chain can
produce. -/
theorem pickLocatorExpr_len_pos (tgt : Option Compiler.Target) :
    0 < (Compiler.pickLocatorExpr tgt).length := by
  unfold Compiler.pickLocatorExpr
  dsimp only
  repeat' split
  all_goals first
    | exact append_len_pos _ _ (by decide)
    | decide

/-- Claim C6: locator selection is total — the chosen locator expression
is never the empty string, and a descriptor whose every hint other than a
non-empty tag name is absent lowers to the bare tag-name fallback. -/
theorem c6_locator_total :
    (∀ tgt : Option Compiler.Target, Compiler.pickLocatorExpr tgt ≠ "")
    ∧ (∀ (tg : String) (t : Compiler.Target),
        t.testId = none → t.role = none → t.accessibleName = none → t.text = none →
        t.ariaLabel = none → t.labelText = none → t.placeholder = none → t.id = none →
        t.css = none → t.tag = some tg → tg ≠ "" →
        Compiler.pickLocatorExpr (some t) = "page.locator(" ++ Compiler.jsString (some tg) ++ ")") := by
  constructor
  · intro tgt
    exact str_ne_empty _ (pickLocatorExpr_len_pos tgt)
  · intro tg t h1 h2 h3 h4 h5 h6 h7 h8 h9 h10 htg
    have he : (tg == "") = false := beq_eq_false_iff_ne.mpr htg
    obtain ⟨f1, f2, f3, f4, f5, f6, f7, f8, f9, f10⟩ := t
    simp only at h1 h2 h3 h4 h5 h6 h7 h8 h9 h10
    subst h1 h2 h3 h4 h5 h6 h7 h8 h9 h10
    simp [Compiler.pickLocatorExpr, truthy, he]

/-- Claim C6 witness: a descriptor with only a tag name lowers to the tag
locator, and its locator expression is non-empty. -/
theorem c6_locator_total_witness :
    Compiler.pickLocatorExpr (some { tag := some ("div") }) = "page.locator(\"div\")"
    ∧ Compiler.pickLocatorExpr (some { tag := some ("div") }) ≠ "" := by
  constructor
  · have h := c6_locator_total.2 ("div") { tag := some ("div") }
      rfl rfl rfl rfl rfl rfl rfl rfl rfl rfl (by decide)
    rw [h]
    decide
  · exact c6_locator_total.1 (some { tag := some ("div") })

/-- Claim C7: compilation is total on malformed input — a tape with a
missing (or non-array) steps property compiles exactly as the empty tape
with the same startUrl does (bootstrap and teardown only), and a step of
unrecognized kind lowers to the inert comment marker instead of aborting. -/
theorem c7_malformed_total :
    (∀ (tape : Compiler.CTape) (p : String), tape.steps = none →
        Compiler.buildScript tape p
          = Compiler.buildScript { startUrl := tape.startUrl, steps := some [] } p)
    ∧ (∀ (s : Compiler.CStep) (i : Nat), s.t ≠ some ("type") → s.t ≠ some ("click") →
        Compiler.stepToCode s i
          = "  // step " ++ toString (i + 1) ++ ": unsupported step type "
              ++ Compiler.jsString s.t ++ " (ignored)") := by
  constructor
  · intro tape p h
    obtain ⟨su, st⟩ := tape
    simp only at h
    subst h
    rfl
  · intro s i ht hc
    have h1 : (s.t == some ("type")) = false := beq_eq_false_iff_ne.mpr ht
    have h2 : (s.t == some ("click")) = false := beq_eq_false_iff_ne.mpr hc
    simp [Compiler.stepToCode, h1, h2]

/-- Claim C7 witness: the fixture tape with missing steps compiles like
the empty tape, and the fixture hover step lowers to the comment marker. -/
theorem c7_malformed_total_witness :
    Compiler.buildScript cTapeNoSteps ("tape.json")
      = Compiler.buildScript { startUrl := some ("https://x.test/"), steps := some [] } ("tape.json")
    ∧ Compiler.stepToCode cStepHover 0 = "  // step 1: unsupported step type \"hover\" (ignored)" := by
  constructor
  · exact c7_malformed_total.1 cTapeNoSteps ("tape.json") rfl
  · rw [c7_malformed_total.2 cStepHover 0 (by decide) (by decide)]
    decide

/-- Counterexample to claim C9 as stated: after the session's tab is
removed, the recording state for the session is gone but the store still
contains the session's Tape — `chrome.tabs.onRemoved` deletes only the
state entry. -/
theorem c9_counterexample :
    (BG.onTabRemoved (BG.popupStart BG.emptyStore ("1") 0) ("1")).tapeByTab ("1")
        = some (BG.freshTape 0)
    ∧ (BG.onTabRemoved (BG.popupStart BG.emptyStore ("1") 0) ("1")).stateByTab ("1") = none := by
  constructor <;> rfl

/-- Claim C9 (amended): enabling recording for a session creates its Tape
when none exists; an explicit clear removes the session's Tape from the
store; removing the session's tab deletes only the recording state and
leaves the Tape map untouched. -/
theorem c9_tape_lifecycle :
    (∀ (st : BG.Store) (k : String) (now : Nat),
        ((BG.popupStart st k now).tapeByTab k).isSome = true)
    ∧ (∀ (st : BG.Store) (k : String), (BG.clearTape st k).tapeByTab k = none)
    ∧ (∀ (st : BG.Store) (k : String),
        (BG.onTabRemoved st k).stateByTab k = none
        ∧ (BG.onTabRemoved st k).tapeByTab = st.tapeByTab) := by
  refine ⟨?_, ?_, ?_⟩
  · intro st k now
    unfold BG.popupStart BG.setRecording BG.ensureTabTape
    cases h : st.tapeByTab k with
    | some t => simp [h]
    | none => simp [h]
  · intro st k
    simp [BG.clearTape]
  · intro st k
    exact ⟨by simp [BG.onTabRemoved], rfl⟩

/-- Claim C10: a null descriptor, and a descriptor whose every field is
null or the empty string, lower to the fixed body locator; and every
strategy of the chain treats an empty-string field exactly as an absent
one (truthiness, not a non-null test), falling through to the next
strategy. -/
theorem c10_empty_fields_fallthrough :
    (Compiler.pickLocatorExpr none = "page.locator(\"body\")")
    ∧ (∀ t : Compiler.Target,
        (t.testId = none ∨ t.testId = some ("")) →
        (t.role = none ∨ t.role = some ("")) →
        (t.accessibleName = none ∨ t.accessibleName = some ("")) →
        (t.text = none ∨ t.text = some ("")) →
        (t.ariaLabel = none ∨ t.ariaLabel = some ("")) →
        (t.labelText = none ∨ t.labelText = some ("")) →
        (t.placeholder = none ∨ t.placeholder = some ("")) →
        (t.id = none ∨ t.id = some ("")) →
        (t.css = none ∨ t.css = some ("")) →
        (t.tag = none ∨ t.tag = some ("")) →
        Compiler.pickLocatorExpr (some t) = "page.locator(\"body\")")
    ∧ (∀ t : Compiler.Target,
        Compiler.pickLocatorExpr (some { t with testId := some ("") })
            = Compiler.pickLocatorExpr (some { t with testId := none })
        ∧ Compiler.pickLocatorExpr (some { t with role := some ("") })
            = Compiler.pickLocatorExpr (some { t with role := none })
        ∧ Compiler.pickLocatorExpr (some { t with accessibleName := some ("") })
            = Compiler.pickLocatorExpr (some { t with accessibleName := none })
        ∧ Compiler.pickLocatorExpr (some { t with text := some ("") })
            = Compiler.pickLocatorExpr (some { t with text := none })
        ∧ Compiler.pickLocatorExpr (some { t with ariaLabel := some ("") })
            = Compiler.pickLocatorExpr (some { t with ariaLabel := none })
        ∧ Compiler.pickLocatorExpr (some { t with labelText := some ("") })
            = Compiler.pickLocatorExpr (some { t with labelText := none })
        ∧ Compiler.pickLocatorExpr (some { t with placeholder := some ("") })
            = Compiler.pickLocatorExpr (some { t with placeholder := none })
        ∧ Compiler.pickLocatorExpr (some { t with id := some ("") })
            = Compiler.pickLocatorExpr (some { t with id := none })
        ∧ Compiler.pickLocatorExpr (some { t with css := some ("") })
            = Compiler.pickLocatorExpr (some { t with css := none })
        ∧ Compiler.pickLocatorExpr (some { t with tag := some ("") })
            = Compiler.pickLocatorExpr (some { t with tag := none })) := by
  refine ⟨rfl, ?_, ?_⟩
  · intro t h1 h2 h3 h4 h5 h6 h7 h8 h9 h10
    have f1 : truthy t.testId = false := by rcases h1 with h | h <;> rw [h] <;> rfl
    have f2 : truthy t.role = false := by rcases h2 with h | h <;> rw [h] <;> rfl
    have f3 : truthy t.accessibleName = false := by rcases h3 with h | h <;> rw [h] <;> rfl
    have f4 : truthy t.text = false := by rcases h4 with h | h <;> rw [h] <;> rfl
    have f5 : truthy t.ariaLabel = false := by rcases h5 with h | h <;> rw [h] <;> rfl
    have f6 : truthy t.labelText = false := by rcases h6 with h | h <;> rw [h] <;> rfl
    have f7 : truthy t.placeholder = false := by rcases h7 with h | h <;> rw [h] <;> rfl
    have f8 : truthy t.id = false := by rcases h8 with h | h <;> rw [h] <;> rfl
    have f9 : truthy t.css = false := by rcases h9 with h | h <;> rw [h] <;> rfl
    have f10 : truthy t.tag = false := by rcases h10 with h | h <;> rw [h] <;> rfl
    simp [Compiler.pickLocatorExpr, f1, f2, f3, f4, f5, f6, f7, f8, f9, f10]
  · intro t
    refine ⟨rfl, rfl, rfl, rfl, ?_, rfl, rfl, rfl, rfl, rfl⟩
    have hts : truthy (some ("")) = false := rfl
    have htn : truthy none = false := rfl
    cases h3 : truthy t.accessibleName
    · cases h4 : truthy t.text
      · simp [Compiler.pickLocatorExpr, h3, h4, hts, htn]
      · simp [Compiler.pickLocatorExpr, h3, h4]
    · simp [Compiler.pickLocatorExpr, h3]

/-- Claim C10 witness: a descriptor with every field either null or empty
lowers to the body locator, and an empty test identifier behaves exactly
as an absent one on a concrete descriptor. -/
theorem c10_empty_fields_fallthrough_witness :
    Compiler.pickLocatorExpr (some { testId := some (""), role := some (""), tag := some ("") })
        = "page.locator(\"body\")"
    ∧ Compiler.pickLocatorExpr (some { cexTargetC1 with testId := some ("") })
        = Compiler.pickLocatorExpr (some { cexTargetC1 with testId := none }) := by
  constructor
  · exact c10_empty_fields_fallthrough.2.1
      { testId := some (""), role := some (""), tag := some ("") }
      (Or.inr rfl) (Or.inr rfl) (Or.inl rfl) (Or.inl rfl) (Or.inl rfl) (Or.inl rfl)
      (Or.inl rfl) (Or.inl rfl) (Or.inl rfl) (Or.inr rfl)
  · exact (c10_empty_fields_fallthrough.2.2 cexTargetC1).1

/-- Definitional restatement of the locator chain on a non-null
descriptor, naming the role strategy's accessible-name chain. -/
theorem pick_some_eq (t : Compiler.Target) :
    Compiler.pickLocatorExpr (some t) =
      (if truthy t.testId then ("page.getByTestId(") ++ Compiler.jsString t.testId ++ ")"
       else if truthy t.role && truthy (Compiler.nameHint t) then
         "page.getByRole(" ++ Compiler.jsString t.role ++ ", \x7b name: "
           ++ Compiler.jsString (Compiler.nameHint t) ++ " \x7d)"
       else if truthy t.labelText then ("page.getByLabel(") ++ Compiler.jsString t.labelText ++ ")"
       else if truthy t.placeholder then
         "page.getByPlaceholder(" ++ Compiler.jsString t.placeholder ++ ")"
       else if truthy t.id then
         "page.locator(" ++ Compiler.jsString (some ("#" ++ t.id.getD (""))) ++ ")"
       else if truthy t.css then ("page.locator(") ++ Compiler.jsString t.css ++ ")"
       else if truthy t.tag then ("page.locator(") ++ Compiler.jsString t.tag ++ ")"
       else ("page.locator(\"body\")")) := rfl

/-- Claim C1 (amended): the compiler evaluates the fixed, ordered
strategy chain — test identifier, role plus name, label, placeholder,
id, CSS fallback, bare tag, body default — where the first strategy
whose field is truthy (non-null and non-empty) wins; and a descriptor
carrying a truthy test identifier always compiles to the
test-identifier strategy, whatever else it carries. -/
theorem c1_priority_chain :
    (∀ t : Compiler.Target,
        Compiler.pickLocatorExpr (some t) = Compiler.firstWins Compiler.strategies t)
    ∧ (∀ t : Compiler.Target, truthy t.testId = true →
        Compiler.pickLocatorExpr (some t)
          = "page.getByTestId(" ++ Compiler.jsString t.testId ++ ")") := by
  constructor
  · intro t
    rw [pick_some_eq]
    cases h1 : truthy t.testId <;>
      cases h2 : truthy t.role && truthy (Compiler.nameHint t) <;>
        cases h3 : truthy t.labelText <;>
          cases h4 : truthy t.placeholder <;>
            cases h5 : truthy t.id <;>
              cases h6 : truthy t.css <;>
                cases h7 : truthy t.tag <;>
                  simp [Compiler.firstWins, Compiler.strategies, h1, h2, h3, h4, h5, h6, h7]
  · intro t h
    rw [pick_some_eq]
    simp [h]

/-- Claim C1 witness: a descriptor carrying a non-empty test identifier
together with a role and name compiles to the test-identifier strategy. -/
theorem c1_priority_chain_witness :
    Compiler.pickLocatorExpr
        (some { testId := some ("submit"), role := some ("button"), accessibleName := some ("OK") })
      = "page.getByTestId(\"submit\")" := by
  rw [c1_priority_chain.2
    { testId := some ("submit"), role := some ("button"), accessibleName := some ("OK") } rfl]
  decide

/-- Steps of `appendStep` never lose the already-set truthy startUrl. -/
theorem appendStep_preserves_startUrl (t : BG.Tape) (s : BG.Step) (n : Nat)
    (h : truthy t.startUrl = true) :
    (BG.appendStep (some t) s n).startUrl = t.startUrl := by
  unfold BG.appendStep
  simp [h]

/-- Steps pushed by `appendStep` extend the steps list by the new step. -/
theorem appendStep_steps (t : BG.Tape) (s : BG.Step) (n : Nat) :
    (BG.appendStep (some t) s n).steps = t.steps ++ [s] := by
  unfold BG.appendStep
  dsimp only
  split <;> rfl

/-- Timestamp written by `appendStep`. -/
theorem appendStep_updatedAt (t : BG.Tape) (s : BG.Step) (n : Nat) :
    (BG.appendStep (some t) s n).updatedAt = n := rfl

/-- StartUrl left by `appendStep` when the tape's startUrl is falsy. -/
theorem appendStep_startUrl_falsy (t : BG.Tape) (s : BG.Step) (n : Nat)
    (h : truthy t.startUrl = false) :
    (BG.appendStep (some t) s n).startUrl = (if truthy s.url then s.url else t.startUrl) := by
  unfold BG.appendStep
  cases hu : truthy s.url <;> simp [h, hu]

/-- A truthy startUrl survives any sequence of appends unchanged. -/
theorem appendMany_preserves_startUrl :
    ∀ (l : List (BG.Step × Nat)) (t : BG.Tape), truthy t.startUrl = true →
      (BG.appendMany t l).startUrl = t.startUrl := by
  intro l
  induction l with
  | nil => intro t _; rfl
  | cons p rest ih =>
    intro t h
    have hs := appendStep_preserves_startUrl t p.1 p.2 h
    calc (BG.appendMany t (p :: rest)).startUrl
        = (BG.appendMany (BG.appendStep (some t) p.1 p.2) rest).startUrl := rfl
      _ = (BG.appendStep (some t) p.1 p.2).startUrl := ih _ (by rw [hs]; exact h)
      _ = t.startUrl := hs

/-- Closed form of the startUrl after a sequence of appends onto a tape
whose startUrl is still falsy: the url of the first appended step that
carries a truthy url, and the old value if none does. -/
theorem appendMany_startUrl :
    ∀ (l : List (BG.Step × Nat)) (t : BG.Tape), truthy t.startUrl = false →
      (BG.appendMany t l).startUrl
        = (match l.find? (fun p => truthy p.1.url) with
           | some p => p.1.url
           | none => t.startUrl) := by
  intro l
  induction l with
  | nil => intro t _; rfl
  | cons p rest ih =>
    intro t h
    cases hu : truthy p.1.url
    · have hs := appendStep_startUrl_falsy t p.1 p.2 h
      rw [hu] at hs
      simp only [if_neg (by simp : ¬(false = true))] at hs
      have : (BG.appendMany t (p :: rest)).startUrl
          = (BG.appendMany (BG.appendStep (some t) p.1 p.2) rest).startUrl := rfl
      rw [this, ih _ (by rw [hs]; exact h), hs]
      simp [List.find?_cons, hu]
    · have hs := appendStep_startUrl_falsy t p.1 p.2 h
      rw [hu] at hs
      simp only [if_pos rfl] at hs
      have : (BG.appendMany t (p :: rest)).startUrl
          = (BG.appendMany (BG.appendStep (some t) p.1 p.2) rest).startUrl := rfl
      rw [this, appendMany_preserves_startUrl rest _ (by rw [hs]; exact hu), hs]
      simp [List.find?_cons, hu]

/-- Closed form of the steps list after a sequence of appends. -/
theorem appendMany_steps :
    ∀ (l : List (BG.Step × Nat)) (t : BG.Tape),
      (BG.appendMany t l).steps = t.steps ++ l.map (fun p => p.1) := by
  intro l
  induction l with
  | nil => intro t; simp [BG.appendMany]
  | cons p rest ih =>
    intro t
    calc (BG.appendMany t (p :: rest)).steps
        = (BG.appendMany (BG.appendStep (some t) p.1 p.2) rest).steps := rfl
      _ = (BG.appendStep (some t) p.1 p.2).steps ++ rest.map (fun p => p.1) := ih _
      _ = t.steps ++ [p.1] ++ rest.map (fun p => p.1) := by rw [appendStep_steps]
      _ = t.steps ++ (p :: rest).map (fun p => p.1) := by simp

/-- Closed form of updatedAt after a sequence of appends: the time of the
last append, and the old stamp for the empty sequence. -/
theorem appendMany_updatedAt :
    ∀ (l : List (BG.Step × Nat)) (t : BG.Tape),
      (BG.appendMany t l).updatedAt = ((l.getLast?).map (fun p => p.2)).getD t.updatedAt := by
  intro l
  induction l with
  | nil => intro t; rfl
  | cons p rest ih =>
    intro t
    have h0 : (BG.appendMany t (p :: rest)).updatedAt
        = (BG.appendMany (BG.appendStep (some t) p.1 p.2) rest).updatedAt := rfl
    rw [h0, ih _, appendStep_updatedAt]
    cases rest with
    | nil => rfl
    | cons q rs =>
      rw [List.getLast?_cons_cons]
      have hne : (q :: rs) ≠ [] := by simp
      obtain ⟨x, hx⟩ := Option.isSome_iff_exists.mp (List.getLast?_isSome.mpr hne)
      rw [hx]
      rfl

/-- Claim C3: startUrl is written at most once — a truthy startUrl is
never overwritten by a later append — and over any append sequence from
a fresh tape it ends up as the url of the first appended step carrying a
(truthy) url; each append also pushes its step onto the steps sequence
and stamps updatedAt with the append's current time. -/
theorem c3_startUrl_once :
    (∀ (t : BG.Tape) (s : BG.Step) (n : Nat), truthy t.startUrl = true →
        (BG.appendStep (some t) s n).startUrl = t.startUrl)
    ∧ (∀ (n0 : Nat) (l : List (BG.Step × Nat)),
        (BG.appendMany (BG.freshTape n0) l).startUrl = BG.firstUrl l
        ∧ (BG.appendMany (BG.freshTape n0) l).steps = l.map (fun p => p.1)
        ∧ (BG.appendMany (BG.freshTape n0) l).updatedAt
            = ((l.getLast?).map (fun p => p.2)).getD n0) := by
  constructor
  · exact appendStep_preserves_startUrl
  · intro n0 l
    refine ⟨?_, ?_, ?_⟩
    · rw [appendMany_startUrl l (BG.freshTape n0) rfl]
      unfold BG.firstUrl
      cases hf : l.find? (fun p => truthy p.1.url) with
      | none => rfl
      | some p =>
        have hp : truthy p.1.url = true := by
          have := List.find?_some hf
          simpa using this
        cases hq : p.1.url with
        | none => rw [hq] at hp; exact absurd hp (by decide)
        | some u => simp [hq]
    · rw [appendMany_steps]
      rfl
    · exact appendMany_updatedAt l (BG.freshTape n0)

/-- Claim C3 witness: an already-set startUrl is not overwritten by an
append carrying a different url. -/
theorem c3_startUrl_once_witness :
    (BG.appendStep (some bgTape0) bgStep0 5).startUrl = some ("https://x.test/") :=
  c3_startUrl_once.1 bgTape0 bgStep0 5 rfl

/-- Typing on a skipped element never schedules a flush: starting with no
pending entry, the machine emits nothing on any event sequence. -/
theorem runEvents_skip (el : Rec.El) (hskip : Rec.shouldSkipTyping el = true) :
    ∀ (recording : Bool) (evs : List Rec.PEvent),
      Rec.runEvents recording el none evs = [] := by
  intro recording evs
  induction evs with
  | nil => rfl
  | cons e rest ih =>
    have hg : Rec.gateOK el = false := by
      unfold Rec.gateOK
      simp [hskip]
    cases e with
    | edit t tr raw =>
      simp [Rec.runEvents, Rec.stepEv, Rec.fireIfDue, hg, ih]
    | endInput t tr =>
      simp only [Rec.runEvents, Rec.stepEv, Rec.fireIfDue]
      split <;> simp [ih]

/-- Claim C8: for an element that is a password-typed input, or disabled,
or read-only, typing capture is skipped entirely: no Type step is ever
emitted, on any event sequence and whatever the recording flag. -/
theorem c8_password_exclusion :
    ∀ el : Rec.El,
      ((lowerStr el.tag = "input" ∧ lowerStr (el.typeAttr.getD ("text")) = "password")
        ∨ el.disabled = true ∨ el.readOnly = true) →
      ∀ (recording : Bool) (evs : List Rec.PEvent),
        Rec.runEvents recording el none evs = [] := by
  intro el h recording evs
  have hskip : Rec.shouldSkipTyping el = true := by
    unfold Rec.shouldSkipTyping
    rcases h with ⟨h1, h2⟩ | h | h
    · simp [h1, h2]
    · by_cases hc : (lowerStr el.tag == "input" && lowerStr (el.typeAttr.getD ("text")) == "password") = true <;>
        simp [hc, h]
    · by_cases hc : (lowerStr el.tag == "input" && lowerStr (el.typeAttr.getD ("text")) == "password") = true <;>
        by_cases hd : el.disabled <;> simp [hc, hd, h]
  exact runEvents_skip el hskip recording evs

/-- Claim C8 witness: edit activity on a password input (mixed-case type
attribute) emits no step even when followed by a blur. -/
theorem c8_password_exclusion_witness :
    Rec.runEvents true elPwd none
        [Rec.PEvent.edit 0 true ("secret"), Rec.PEvent.edit 100 true ("secrets"),
         Rec.PEvent.endInput 150 true] = [] :=
  c8_password_exclusion elPwd (Or.inl (by constructor <;> decide)) true
    [Rec.PEvent.edit 0 true ("secret"), Rec.PEvent.edit 100 true ("secrets"),
     Rec.PEvent.endInput 150 true]

/-- A burst of accepted edits, each strictly before the pending deadline,
repeatedly cancels and reschedules the flush; the single emission is the
final pending entry firing after the stream ends. -/
theorem runEdits_from_pending (el : Rec.El) (hg : Rec.gateOK el = true) :
    ∀ (es : List (Nat × String)) (p : Nat × String), Rec.withinChainB p.1 es = true →
      Rec.runEvents true el (some p) (Rec.edits es) = [Rec.pendAfter el p es] := by
  intro es
  induction es with
  | nil => intro p _; rfl
  | cons q rest ih =>
    intro p hc
    unfold Rec.withinChainB at hc
    by_cases hlt : q.1 < p.1
    · rw [if_pos hlt] at hc
      have hnd : ¬(p.1 ≤ q.1) := by omega
      simp only [Rec.edits, List.map_cons, Rec.runEvents, Rec.stepEv, Rec.fireIfDue]
      rw [if_neg hnd]
      simp only [hg, Bool.and_true, Bool.and_self, if_pos rfl]
      have := ih (q.1 + Rec.TYPE_DEBOUNCE_MS, Rec.clampValue (Rec.capturedValue el q.2)) hc
      simp only [Rec.edits] at this
      simp [this, Rec.pendAfter]
    · rw [if_neg hlt] at hc
      exact absurd hc (by decide)

/-- Closed form of the final pending entry of an edit burst: deadline 700
ms after the last edit, carrying the last edit's clamped captured value. -/
theorem pendAfter_getLast (el : Rec.El) :
    ∀ (es : List (Nat × String)) (t : Nat) (v : String),
      Rec.pendAfter el (t + Rec.TYPE_DEBOUNCE_MS, Rec.clampValue (Rec.capturedValue el v)) es
        = ((es.getLastD (t, v)).1 + Rec.TYPE_DEBOUNCE_MS,
           Rec.clampValue (Rec.capturedValue el (es.getLastD (t, v)).2)) := by
  intro es
  induction es with
  | nil => intro t v; rfl
  | cons q rest ih =>
    intro t v
    rw [List.getLastD_cons]
    exact ih q.1 q.2

/-- A change/blur arriving while a flush is pending (before its deadline)
flushes it immediately at the event's own time. -/
theorem run_blur_from_pending (el : Rec.El) (hg : Rec.gateOK el = true) :
    ∀ (es : List (Nat × String)) (p : Nat × String), Rec.withinChainB p.1 es = true →
      ∀ tb : Nat, tb < (Rec.pendAfter el p es).1 →
        Rec.runEvents true el (some p) (Rec.edits es ++ [Rec.PEvent.endInput tb true])
          = [(tb, (Rec.pendAfter el p es).2)] := by
  intro es
  induction es with
  | nil =>
    intro p _ tb htb
    have hnd : ¬(p.1 ≤ tb) := by
      simp only [Rec.pendAfter] at htb
      omega
    simp only [Rec.edits, List.map_nil, List.nil_append, Rec.runEvents, Rec.stepEv,
      Rec.fireIfDue]
    rw [if_neg hnd]
    simp [Rec.pendAfter, Rec.runEvents]
  | cons q rest ih =>
    intro p hc tb htb
    unfold Rec.withinChainB at hc
    by_cases hlt : q.1 < p.1
    · rw [if_pos hlt] at hc
      have hnd : ¬(p.1 ≤ q.1) := by omega
      simp only [Rec.edits, List.map_cons, List.cons_append, Rec.runEvents, Rec.stepEv,
        Rec.fireIfDue]
      rw [if_neg hnd]
      simp only [hg, Bool.and_true, Bool.and_self, if_pos rfl]
      have hpa : Rec.pendAfter el p (q :: rest)
          = Rec.pendAfter el (q.1 + Rec.TYPE_DEBOUNCE_MS, Rec.clampValue (Rec.capturedValue el q.2)) rest := rfl
      rw [hpa] at htb ⊢
      have := ih (q.1 + Rec.TYPE_DEBOUNCE_MS, Rec.clampValue (Rec.capturedValue el q.2)) hc tb htb
      simp only [Rec.edits] at this
      simp [this]
    · rw [if_neg hlt] at hc
      exact absurd hc (by decide)

/-- Claim C4: for an editable, non-skipped element, any burst of trusted
edits in which each edit falls strictly within the 700 ms window of its
predecessor produces exactly one Type emission, at the last edit's
deadline, carrying the last edit's (clamped, captured) value; and an
explicit change/blur arriving before that deadline force-flushes the
pending edit immediately at the blur's own time, still carrying the last
edit's value. -/
theorem c4_debounce_coalescing :
    ∀ (el : Rec.El), Rec.gateOK el = true →
    ∀ (t1 : Nat) (v1 : String) (es : List (Nat × String)),
      Rec.withinChainB (t1 + Rec.TYPE_DEBOUNCE_MS) es = true →
      (Rec.runEvents true el none (Rec.edits ((t1, v1) :: es))
          = [((es.getLastD (t1, v1)).1 + Rec.TYPE_DEBOUNCE_MS,
              Rec.clampValue (Rec.capturedValue el (es.getLastD (t1, v1)).2))])
      ∧ (∀ tb : Nat, tb < (es.getLastD (t1, v1)).1 + Rec.TYPE_DEBOUNCE_MS →
          Rec.runEvents true el none (Rec.edits ((t1, v1) :: es) ++ [Rec.PEvent.endInput tb true])
            = [(tb, Rec.clampValue (Rec.capturedValue el (es.getLastD (t1, v1)).2))]) := by
  intro el hg t1 v1 es hc
  have hfirst : ∀ rest : List Rec.PEvent,
      Rec.runEvents true el none (Rec.PEvent.edit t1 true v1 :: rest)
        = Rec.runEvents true el
            (some (t1 + Rec.TYPE_DEBOUNCE_MS, Rec.clampValue (Rec.capturedValue el v1))) rest := by
    intro rest
    simp only [Rec.runEvents, Rec.stepEv, Rec.fireIfDue]
    simp [hg]
  constructor
  · have h1 : Rec.edits ((t1, v1) :: es) = Rec.PEvent.edit t1 true v1 :: Rec.edits es := rfl
    rw [h1, hfirst, runEdits_from_pending el hg es _ hc, pendAfter_getLast el es t1 v1]
  · intro tb htb
    have h1 : Rec.edits ((t1, v1) :: es) ++ [Rec.PEvent.endInput tb true]
        = Rec.PEvent.edit t1 true v1 :: (Rec.edits es ++ [Rec.PEvent.endInput tb true]) := rfl
    rw [h1, hfirst,
      run_blur_from_pending el hg es _ hc tb (by rw [pendAfter_getLast el es t1 v1]; exact htb),
      pendAfter_getLast el es t1 v1]

/-- Claim C4 witness: three edits inside the debounce window coalesce to
one emission with the final value at the last deadline, and a blur at 350
ms flushes that value immediately. -/
theorem c4_debounce_coalescing_witness :
    Rec.runEvents true elText none (Rec.edits [(0, "h"), (100, "he"), (300, "hey")])
        = [(1000, "hey")]
    ∧ Rec.runEvents true elText none
          (Rec.edits [(0, "h"), (100, "he"), (300, "hey")] ++ [Rec.PEvent.endInput 350 true])
        = [(350, "hey")] := by
  have h := c4_debounce_coalescing elText (by decide) 0 ("h") [(100, "he"), (300, "hey")] (by decide)
  constructor
  · rw [h.1]
    decide
  · rw [h.2 350 (by decide)]
    decide

/-- Membership survives first-occurrence deduplication (up to the seen
accumulator). -/
theorem mem_dedupAux :
    ∀ (l seen : List String) (x : String), x ∈ l →
      x ∈ seen ∨ x ∈ Params.dedupAux seen l := by
  intro l
  induction l with
  | nil => intro seen x hx; cases hx
  | cons h t ih =>
    intro seen x hx
    unfold Params.dedupAux
    by_cases hs : seen.contains h = true
    · rw [if_pos hs]
      rcases List.mem_cons.mp hx with rfl | hx'
      · left
        simpa using hs
      · exact ih seen x hx'
    · rw [if_neg hs]
      rcases List.mem_cons.mp hx with rfl | hx'
      · right
        exact List.mem_cons_self x _
      · rcases ih (h :: seen) x hx' with hin | hin
        · rcases List.mem_cons.mp hin with rfl | h2
          · right
            exact List.mem_cons_self x _
          · left
            exact h2
        · right
          exact List.mem_cons_of_mem _ hin

/-- Membership survives deduplication. -/
theorem mem_dedup (l : List String) (x : String) (hx : x ∈ l) : x ∈ Params.dedup l := by
  rcases mem_dedupAux l [] x hx with hin | hin
  · cases hin
  · exact hin

/-- On input containing no opening brace, the scanner never leaves the
outside state: no placeholder token beyond the already-committed ones is
found. -/
theorem parse_out_noBrace :
    ∀ (cs : List Char) (segs : List Params.Seg) (lit : List Char),
      (∀ c ∈ cs, ¬ c = '{') →
      Params.phNames (Params.parseAux segs lit Params.PMode.out cs)
        = Params.phNames segs.reverse := by
  intro cs
  induction cs with
  | nil =>
    intro segs lit _
    simp only [Params.parseAux]
    split
    · rfl
    · simp [Params.phNames, List.filterMap_append]
  | cons c rest ih =>
    intro segs lit h
    have hc : ¬ c = '{' := h c (List.mem_cons_self c rest)
    simp only [Params.parseAux]
    rw [if_neg hc]
    exact ih segs (c :: lit) (fun c' h' => h c' (List.mem_cons_of_mem _ h'))

/-- A script with no opening brace references no placeholder. -/
theorem extract_of_noBrace (s : String) (h : ∀ c ∈ s.data, ¬ c = '{') :
    Params.extract s = [] := by
  unfold Params.extract Params.parseSegs
  rw [parse_out_noBrace s.data [] [] h]
  rfl

/-- Rendered output characters all come from a literal segment or from a
supplied value. -/
theorem renderChars_noBrace (segs : List Params.Seg) (m : String → Option String)
    (hlit : ∀ cs, Params.Seg.lit cs ∈ segs → ∀ c ∈ cs, ¬ c = '{')
    (hph : ∀ n, Params.Seg.ph n ∈ segs → ∀ c ∈ ((m n).getD ("")).data, ¬ c = '{') :
    ∀ c ∈ Params.renderChars segs m, ¬ c = '{' := by
  intro c hc
  unfold Params.renderChars at hc
  rw [List.mem_flatten] at hc
  obtain ⟨piece, hpiece, hcp⟩ := hc
  rw [List.mem_map] at hpiece
  obtain ⟨seg, hseg, hpm⟩ := hpiece
  cases seg with
  | lit cs =>
    rw [← hpm] at hcp
    exact hlit cs hseg c hcp
  | ph n =>
    rw [← hpm] at hcp
    exact hph n hseg c hcp

/-- Claim C5 (amended, modelled from the spec): substitution is
all-or-nothing — when any referenced placeholder lacks a supplied value,
substitution fails and nothing is handed to execution; and when every
referenced name has a value, substitution succeeds and, provided neither
the supplied values nor the script's literal text contain marker
delimiter characters, the result references zero placeholder tokens. -/
theorem c5_substitution_all_or_nothing :
    (∀ (script : String) (m : String → Option String),
        (∃ n ∈ Params.extract script, m n = none) →
        Params.replayExec script m = none)
    ∧ (∀ (script : String) (m : String → Option String),
        (∀ n ∈ Params.extract script, (m n).isSome = true) →
        (∀ n ∈ Params.extract script, Params.braceFreeAt m n = true) →
        Params.litsClean script = true →
        ∃ out, Params.replayExec script m = some out ∧ Params.extract out = []) := by
  constructor
  · intro script m h
    obtain ⟨n, hn, hm⟩ := h
    cases hf : (Params.extract script).find? (fun n => (m n).isNone) with
    | some k =>
      simp [Params.replayExec, Params.substitute, hf, Except.toOption]
    | none =>
      exfalso
      have := List.find?_eq_none.mp hf n hn
      rw [hm] at this
      exact this rfl
  · intro script m h1 h2 h3
    have hf : (Params.extract script).find? (fun n => (m n).isNone) = none := by
      rw [List.find?_eq_none]
      intro x hx hno
      have hs := h1 x hx
      rw [Option.isNone_iff_eq_none.mp hno] at hs
      exact absurd hs (by decide)
    refine ⟨String.mk (Params.renderChars (Params.parseSegs script) m), ?_, ?_⟩
    · simp [Params.replayExec, Params.substitute, hf, Except.toOption]
    · apply extract_of_noBrace
      apply renderChars_noBrace
      · intro cs hseg c hc
        have hall := List.all_eq_true.mp h3 _ hseg
        simp only at hall
        have := List.all_eq_true.mp hall c hc
        simp at this
        exact this.1
      · intro n hseg c hc
        have hmem : n ∈ Params.extract script := by
          apply mem_dedup
          exact List.mem_filterMap.mpr ⟨Params.Seg.ph n, hseg, rfl⟩
        have hbf := h2 n hmem
        unfold Params.braceFreeAt at hbf
        cases hm : m n with
        | none =>
          rw [hm] at hc
          simp at hc
        | some v =>
          rw [hm] at hbf hc
          simp only [Option.getD_some] at hc
          have := List.all_eq_true.mp hbf c hc
          simp at this
          exact this.1

/-- Counterexample to claim C5's zero-remaining-markers conclusion as
universally stated: every referenced placeholder of the script has a
supplied value, substitution succeeds, yet the supplied value itself
contains a marker token, so the substituted result still references a
placeholder (the substitution is literal and does not escape values — the
spec's own documented limitation). -/
theorem c5_counterexample :
    (∀ n ∈ Params.extract pScriptCex, (pMapCex n).isSome = true)
    ∧ Params.replayExec pScriptCex pMapCex = some ("run \x7b\x7bb\x7d\x7d now")
    ∧ Params.extract ("run \x7b\x7bb\x7d\x7d now") = ["b"] := by
  refine ⟨by decide, rfl, by decide⟩

/-- Claim C5 witness: with only one of the two referenced placeholders
supplied, nothing is executed; with both supplied (and clean values), the
result references zero placeholders. -/
theorem c5_substitution_all_or_nothing_witness :
    Params.replayExec pScript1 pMapMissing = none
    ∧ (∃ out, Params.replayExec pScript1 pMapFull = some out ∧ Params.extract out = []) :=
  ⟨c5_substitution_all_or_nothing.1 pScript1 pMapMissing (by decide),
   c5_substitution_all_or_nothing.2 pScript1 pMapFull (by decide) (by decide) (by decide)⟩
